import Mathlib

/-!
Verification of the WebBench real-time ray-tracing resource pipeline.

The development shallowly embeds the partitioned GPU buffer allocator
(`src/renderer/buffer.ts`), the benchmark score computation, the mesh
initialization path (`src/mesh/obj_mesh.ts`), the per-frame render entry
point (`src/renderer/renderer.ts`), and the BVH builder.  Machine numbers
are modelled as `Nat`/`Int`/`Rat`; the floating-point power function used
by the score formula is abstracted as an explicit function parameter.
-/

set_option maxHeartbeats 1000000

namespace WebBench

/-! ## WebGPU usage flag constants (`GPUBufferUsage`) -/

def GPUBufferUsage_STORAGE : ℕ := 0x0080
def GPUBufferUsage_UNIFORM : ℕ := 0x0040
def GPUBufferUsage_COPY_DST : ℕ := 0x0008

/-- Modelled from the spec: the `Partition` record (`src/renderer/partition.ts`
is referenced by `buffer.ts` but absent from the sources); spec §3
"Buffer Partition": `{offset, size, payload}`. -/
structure Partition where
  offset : ℕ
  size : ℕ
  payload : List ℤ
deriving DecidableEq

/-- The two runtime device limits consulted by `add_coarse_partition`
(`this.device.limits` in `buffer.ts`). -/
structure GPULimits where
  minStorageBufferOffsetAlignment : ℕ
  minUniformBufferOffsetAlignment : ℕ

/-- State of a `Buffer` object (`buffer.ts`): the running extent `size`,
the coarse partition list, the per-coarse host shadow array lengths (in
float32 elements, `new Float32Array(size / 4)`), and the per-coarse fine
partition lists. -/
structure BufferState where
  size : ℕ
  coarse_partitions : List Partition
  hostLengths : List ℕ
  fine_partitions : List (List Partition)

/-- The padding expression from `add_coarse_partition`
(`buffer.ts` line 43/50): `(alignment - (offset & alignment - 1)) & alignment - 1`.
JS `&` binds looser than `-`, so both `& alignment - 1` parse as
`&&& (alignment - 1)`. -/
def alignPadding (offset alignment : ℕ) : ℕ :=
  (alignment - (offset &&& (alignment - 1))) &&& (alignment - 1)

/-- `Buffer.add_coarse_partition` (`buffer.ts` lines 34-60).  The code sets
`offset = this.size`, grows `this.size` by `size`, then for each of the
storage and uniform usage flags adds an alignment padding to both the
offset and the running size, pushes `new Partition(offset, size, [])`, a
host shadow of `size / 4` float32 elements and an empty fine partition
list, and returns the new partition's index. -/
def add_coarse_partition (limits : GPULimits) (st : BufferState) (size usage : ℕ) :
    BufferState × ℕ :=
  let offset0 := st.size
  let size0 := st.size + size
  let stPad := if usage &&& GPUBufferUsage_STORAGE ≠ 0 then
      alignPadding offset0 limits.minStorageBufferOffsetAlignment else 0
  let offset1 := offset0 + stPad
  let size1 := size0 + stPad
  let uPad := if usage &&& GPUBufferUsage_UNIFORM ≠ 0 then
      alignPadding offset1 limits.minUniformBufferOffsetAlignment else 0
  let offset2 := offset1 + uPad
  let size2 := size1 + uPad
  (⟨size2,
    st.coarse_partitions ++ [⟨offset2, size, []⟩],
    st.hostLengths ++ [size / 4],
    st.fine_partitions ++ [[]]⟩,
   st.coarse_partitions.length)

/-- `Buffer.add_fine_partition` (`buffer.ts` lines 72-85), acting on the
fine partition list of one parent coarse partition: the new partition is
appended with offset `0` for the first partition and
`last.offset + last.size` afterwards; the new partition's index (the old
length) is returned. -/
def add_fine_partition (fine_partitions : List Partition) (size : ℕ) (payload : List ℤ) :
    List Partition × ℕ :=
  let partition_index := fine_partitions.length
  let offset := match fine_partitions.getLast? with
    | none => 0
    | some last => last.offset + last.size
  (fine_partitions ++ [⟨offset, size, payload⟩], partition_index)

/-- Runs a sequence of `add_fine_partition` calls (given as `(size, payload)`
requests) against an initially empty fine partition list of one parent. -/
def add_fine_partitions (reqs : List (ℕ × List ℤ)) : List Partition :=
  reqs.foldl (fun fps r => (add_fine_partition fps r.1 r.2).1) []

/-- The transfer ceiling `MAX_CHUNK_BYTES = 15 * 1024 * 1024` from
`upload_coarse_partition` / `upload_fine_partition`. -/
def MAX_CHUNK_BYTES : ℕ := 15 * 1024 * 1024

/-- One `device.queue.writeBuffer` call: source byte offset into the host
shadow array, destination byte offset into the device buffer, byte length. -/
structure DeviceWrite where
  srcOffset : ℕ
  dstOffset : ℕ
  len : ℕ
deriving DecidableEq

/-- The upload loop of `upload_coarse_partition` / `upload_fine_partition`
(`buffer.ts` lines 107-124 and 158-175): while bytes remain, take a chunk of
`min remaining MAX_CHUNK_BYTES` bytes, issue one write, and advance both the
source and destination offsets by the chunk size. -/
def chunkWrites (srcOffset dstOffset remaining : ℕ) : List DeviceWrite :=
  if _h : remaining = 0 then []
  else
    let chunk := min remaining MAX_CHUNK_BYTES
    ⟨srcOffset, dstOffset, chunk⟩ ::
      chunkWrites (srcOffset + chunk) (dstOffset + chunk) (remaining - chunk)
termination_by remaining
decreasing_by
  simp only [MAX_CHUNK_BYTES]
  omega

/-- The device writes issued by `Buffer.upload_coarse_partition`
(`buffer.ts` lines 94-125): the whole host shadow (`hostByteLength =
host_memory.byteLength` bytes) is copied to the device starting at the
coarse partition's byte offset, chunked by `MAX_CHUNK_BYTES`. -/
def upload_coarse_partition_writes (coarse : Partition) (hostByteLength : ℕ) :
    List DeviceWrite :=
  chunkWrites 0 coarse.offset hostByteLength

/-- The device writes issued by `Buffer.upload_fine_partition`
(`buffer.ts` lines 144-176): source starts at `fine.offset * 4` bytes inside
the host shadow, destination at `coarse.offset + 4 * fine.offset`, and
`fine.size * 4` bytes are copied, chunked by `MAX_CHUNK_BYTES`. -/
def upload_fine_partition_writes (coarse fine : Partition) : List DeviceWrite :=
  chunkWrites (fine.offset * 4) (coarse.offset + 4 * fine.offset) (fine.size * 4)

/-- The closed form of the chunked upload: write `i` covers the byte range
`[i * MAX_CHUNK_BYTES, min ((i+1) * MAX_CHUNK_BYTES) S)` of the region,
re-based at the given source and destination offsets. -/
def expectedWrites (srcOffset dstOffset S : ℕ) : List DeviceWrite :=
  (List.range ((S + MAX_CHUNK_BYTES - 1) / MAX_CHUNK_BYTES)).map fun i =>
    ⟨srcOffset + i * MAX_CHUNK_BYTES, dstOffset + i * MAX_CHUNK_BYTES,
     min (S - i * MAX_CHUNK_BYTES) MAX_CHUNK_BYTES⟩

/-- The upload loop of `upload_fine_partition` with the bounds check that the
JS runtime performs when each chunk's `Float32Array` view is constructed
(`new Float32Array(host_memory.buffer, byteOffset, chunk / 4)` throws a
`RangeError` when the view would extend past the end of the host buffer of
`hostByteLength` bytes): chunks are issued until the first failing view,
which raises before its write happens. -/
def chunkWritesChecked (hostByteLength srcOffset dstOffset remaining : ℕ) :
    List DeviceWrite :=
  if _h : remaining = 0 then []
  else
    let chunk := min remaining MAX_CHUNK_BYTES
    if srcOffset + chunk ≤ hostByteLength then
      ⟨srcOffset, dstOffset, chunk⟩ ::
        chunkWritesChecked hostByteLength (srcOffset + chunk) (dstOffset + chunk)
          (remaining - chunk)
    else []
termination_by remaining
decreasing_by
  simp only [MAX_CHUNK_BYTES]
  omega

/-- The device writes actually issued by `Buffer.upload_fine_partition` for a
fine partition inside a coarse partition whose host shadow holds
`hostLength` float32 elements. -/
def upload_fine_partition_issued (hostLength : ℕ) (coarse fine : Partition) :
    List DeviceWrite :=
  chunkWritesChecked (4 * hostLength) (fine.offset * 4)
    (coarse.offset + 4 * fine.offset) (fine.size * 4)

/-- JS `TypedArray.prototype.set(src, offset)`: copies `src` into the array at
`offset`, or throws a `RangeError` (returning `none` here) when
`offset + src.length` exceeds the target length; no partial copy happens. -/
def typedArraySet (mem src : List ℚ) (offset : ℕ) : Option (List ℚ) :=
  if offset + src.length ≤ mem.length then
    some (mem.take offset ++ src ++ mem.drop (offset + src.length))
  else none

/-- `Buffer.blit_to_fine_partition` (`buffer.ts` lines 135-142):
`host_memory.set(src, partition.offset)` — a pure host-memory mutation. -/
def blit_to_fine_partition (host_memory : List ℚ) (fine : Partition) (src : List ℚ) :
    Option (List ℚ) :=
  typedArraySet host_memory src fine.offset

/-! ## Alignment arithmetic of `add_coarse_partition` -/

theorem alignPadding_eq_mod (O A k : ℕ) (hA : A = 2 ^ k) :
    alignPadding O A = (A - O % A) % A := by
  subst hA
  unfold alignPadding
  rw [Nat.and_pow_two_sub_one_eq_mod, Nat.and_pow_two_sub_one_eq_mod]

theorem alignPadding_of_mod_eq_zero (O A k : ℕ) (hA : A = 2 ^ k) (h : O % A = 0) :
    alignPadding O A = 0 := by
  rw [alignPadding_eq_mod O A k hA, h, Nat.sub_zero, Nat.mod_self]

theorem alignPadding_aligns (O A k : ℕ) (hA : A = 2 ^ k) :
    (O + alignPadding O A) % A = 0 := by
  have hpos : 0 < A := hA ▸ Nat.two_pow_pos k
  rw [alignPadding_eq_mod O A k hA]
  rcases Nat.eq_zero_or_pos (O % A) with h0 | hr
  · rw [h0, Nat.sub_zero, Nat.mod_self, Nat.add_zero]
    exact h0
  · have hlt : O % A < A := Nat.mod_lt _ hpos
    have h1 : (A - O % A) % A = A - O % A := Nat.mod_eq_of_lt (by omega)
    have hdm := Nat.div_add_mod O A
    have h2 : O + (A - O % A) = A * (O / A) + A := by omega
    rw [h1, h2, Nat.add_mod, Nat.mul_mod_right, Nat.mod_self, Nat.add_zero,
      Nat.zero_mod]

/-! ## Closed form of the chunked upload loop -/

theorem chunkWrites_zero (srcOffset dstOffset : ℕ) :
    chunkWrites srcOffset dstOffset 0 = [] := by
  rw [chunkWrites]
  rfl

theorem chunkWrites_pos (srcOffset dstOffset S : ℕ) (h : S ≠ 0) :
    chunkWrites srcOffset dstOffset S
      = ⟨srcOffset, dstOffset, min S MAX_CHUNK_BYTES⟩ ::
          chunkWrites (srcOffset + min S MAX_CHUNK_BYTES)
            (dstOffset + min S MAX_CHUNK_BYTES) (S - min S MAX_CHUNK_BYTES) := by
  rw [chunkWrites, dif_neg h]

theorem chunkWrites_eq_expectedWrites (S : ℕ) :
    ∀ srcOffset dstOffset,
      chunkWrites srcOffset dstOffset S = expectedWrites srcOffset dstOffset S := by
  induction S using Nat.strong_induction_on with
  | _ S ih =>
    intro src dst
    have hcount0 : (0 + MAX_CHUNK_BYTES - 1) / MAX_CHUNK_BYTES = 0 := by
      simp only [MAX_CHUNK_BYTES]
    by_cases h0 : S = 0
    · subst h0
      rw [chunkWrites_zero]
      unfold expectedWrites
      rw [hcount0, List.range_zero, List.map_nil]
    · rw [chunkWrites_pos src dst S h0]
      have hM : 0 < MAX_CHUNK_BYTES := by simp [MAX_CHUNK_BYTES]
      have hcpos : 0 < min S MAX_CHUNK_BYTES := by omega
      rw [ih (S - min S MAX_CHUNK_BYTES) (by omega)]
      rcases le_or_lt S MAX_CHUNK_BYTES with hle | hlt
      · have hc : min S MAX_CHUNK_BYTES = S := min_eq_left hle
        rw [hc, Nat.sub_self]
        have hcount : (S + MAX_CHUNK_BYTES - 1) / MAX_CHUNK_BYTES = 1 := by
          simp only [MAX_CHUNK_BYTES] at hle ⊢
          omega
        have hr1 : List.range 1 = [0] := rfl
        unfold expectedWrites
        rw [hcount, hcount0, List.range_zero, List.map_nil, hr1, List.map_cons,
          List.map_nil]
        simp only [Nat.zero_mul, Nat.add_zero, Nat.sub_zero, hc]
      · have hc : min S MAX_CHUNK_BYTES = MAX_CHUNK_BYTES := min_eq_right (le_of_lt hlt)
        rw [hc]
        have hcount : (S + MAX_CHUNK_BYTES - 1) / MAX_CHUNK_BYTES
            = ((S - MAX_CHUNK_BYTES) + MAX_CHUNK_BYTES - 1) / MAX_CHUNK_BYTES + 1 := by
          simp only [MAX_CHUNK_BYTES] at hlt ⊢
          omega
        unfold expectedWrites
        rw [hcount, List.range_succ_eq_map, List.map_cons, List.map_map]
        congr 1
        · simp only [Nat.zero_mul, Nat.add_zero, Nat.sub_zero]
          rw [hc]
        · apply List.map_congr_left
          intro i _
          simp only [Function.comp_apply, DeviceWrite.mk.injEq, MAX_CHUNK_BYTES]
          omega

theorem chunkWrites_len_sum (S : ℕ) :
    ∀ srcOffset dstOffset,
      ((chunkWrites srcOffset dstOffset S).map DeviceWrite.len).sum = S := by
  induction S using Nat.strong_induction_on with
  | _ S ih =>
    intro src dst
    by_cases h0 : S = 0
    · subst h0; rw [chunkWrites_zero]; rfl
    · rw [chunkWrites_pos src dst S h0]
      have hM : 0 < MAX_CHUNK_BYTES := by simp [MAX_CHUNK_BYTES]
      have := ih (S - min S MAX_CHUNK_BYTES) (by omega)
      simp only [List.map_cons, List.sum_cons, this]
      omega

theorem chunkWrites_len_bounds (S : ℕ) :
    ∀ srcOffset dstOffset, ∀ w ∈ chunkWrites srcOffset dstOffset S,
      0 < w.len ∧ w.len ≤ MAX_CHUNK_BYTES := by
  induction S using Nat.strong_induction_on with
  | _ S ih =>
    intro src dst w hw
    by_cases h0 : S = 0
    · subst h0; rw [chunkWrites_zero] at hw; cases hw
    · rw [chunkWrites_pos src dst S h0] at hw
      have hM : 0 < MAX_CHUNK_BYTES := by simp [MAX_CHUNK_BYTES]
      rcases List.mem_cons.mp hw with hhead | htail
      · subst hhead
        refine ⟨?_, ?_⟩
        · show 0 < min S MAX_CHUNK_BYTES
          omega
        · show min S MAX_CHUNK_BYTES ≤ MAX_CHUNK_BYTES
          omega
      · exact ih (S - min S MAX_CHUNK_BYTES) (by omega) _ _ w htail

/-! ## Bump allocation of fine partitions -/

/-- The canonical bump-allocated partition list: each partition starts where
the previous one ends. -/
def bumpPartitions (base : ℕ) : List (ℕ × List ℤ) → List Partition
  | [] => []
  | (s, p) :: rest => ⟨base, s, p⟩ :: bumpPartitions (base + s) rest

/-- The offset `add_fine_partition` would assign next (`0` for an empty list,
`last.offset + last.size` otherwise). -/
def nextFineOffset (fps : List Partition) : ℕ :=
  match fps.getLast? with
  | none => 0
  | some last => last.offset + last.size

theorem foldl_add_fine (reqs : List (ℕ × List ℤ)) :
    ∀ fps : List Partition,
      reqs.foldl (fun fps r => (add_fine_partition fps r.1 r.2).1) fps
        = fps ++ bumpPartitions (nextFineOffset fps) reqs := by
  induction reqs with
  | nil => intro fps; simp [bumpPartitions]
  | cons r rest ih =>
    intro fps
    obtain ⟨s, p⟩ := r
    rw [List.foldl_cons]
    have h1 : (add_fine_partition fps s p).1
        = fps ++ [⟨nextFineOffset fps, s, p⟩] := by
      simp [add_fine_partition, nextFineOffset]
    rw [h1, ih]
    have h2 : nextFineOffset (fps ++ [⟨nextFineOffset fps, s, p⟩])
        = nextFineOffset fps + s := by
      simp [nextFineOffset, List.getLast?_concat]
    rw [h2, bumpPartitions, List.append_assoc, List.singleton_append]

theorem add_fine_partitions_eq_bump (reqs : List (ℕ × List ℤ)) :
    add_fine_partitions reqs = bumpPartitions 0 reqs := by
  have := foldl_add_fine reqs []
  simpa [add_fine_partitions, nextFineOffset] using this

theorem bumpPartitions_append (r : ℕ × List ℤ) (reqs : List (ℕ × List ℤ)) :
    ∀ base, bumpPartitions base (reqs ++ [r])
      = bumpPartitions base reqs
          ++ [⟨base + ((reqs.map Prod.fst).sum), r.1, r.2⟩] := by
  induction reqs with
  | nil => intro base; simp [bumpPartitions]
  | cons q rest ih =>
    intro base
    obtain ⟨s, p⟩ := q
    rw [List.cons_append, bumpPartitions, bumpPartitions, ih (base + s)]
    simp [List.map_cons, List.sum_cons, Nat.add_assoc]

theorem bumpPartitions_length (reqs : List (ℕ × List ℤ)) :
    ∀ base, (bumpPartitions base reqs).length = reqs.length := by
  induction reqs with
  | nil => intro base; rfl
  | cons q rest ih =>
    intro base
    obtain ⟨s, p⟩ := q
    simp [bumpPartitions, ih]

theorem bumpPartitions_map_size (reqs : List (ℕ × List ℤ)) :
    ∀ base, (bumpPartitions base reqs).map Partition.size = reqs.map Prod.fst := by
  induction reqs with
  | nil => intro base; rfl
  | cons q rest ih =>
    intro base
    obtain ⟨s, p⟩ := q
    simp [bumpPartitions, ih]

theorem bumpPartitions_map_payload (reqs : List (ℕ × List ℤ)) :
    ∀ base, (bumpPartitions base reqs).map Partition.payload = reqs.map Prod.snd := by
  induction reqs with
  | nil => intro base; rfl
  | cons q rest ih =>
    intro base
    obtain ⟨s, p⟩ := q
    simp [bumpPartitions, ih]

theorem bumpPartitions_get_offset (reqs : List (ℕ × List ℤ)) :
    ∀ (base : ℕ) (i : Fin (bumpPartitions base reqs).length),
      ((bumpPartitions base reqs).get i).offset
        = base + ((reqs.take i.val).map Prod.fst).sum := by
  induction reqs with
  | nil => intro base i; exact absurd i.isLt (by simp [bumpPartitions])
  | cons q rest ih =>
    intro base i
    obtain ⟨s, p⟩ := q
    match i with
    | ⟨0, _⟩ => simp [bumpPartitions]
    | ⟨j + 1, hj⟩ =>
      have hj' : j < (bumpPartitions (base + s) rest).length := by
        simpa [bumpPartitions] using hj
      have := ih (base + s) ⟨j, hj'⟩
      simp only [bumpPartitions, List.get_cons_succ, this, List.take_succ_cons,
        List.map_cons, List.sum_cons]
      omega

/-! ## Bounds of the checked fine-partition upload -/

theorem chunkWritesChecked_zero (H srcOffset dstOffset : ℕ) :
    chunkWritesChecked H srcOffset dstOffset 0 = [] := by
  rw [chunkWritesChecked]
  rfl

theorem chunkWritesChecked_pos (H srcOffset dstOffset S : ℕ) (h : S ≠ 0) :
    chunkWritesChecked H srcOffset dstOffset S
      = if srcOffset + min S MAX_CHUNK_BYTES ≤ H then
          ⟨srcOffset, dstOffset, min S MAX_CHUNK_BYTES⟩ ::
            chunkWritesChecked H (srcOffset + min S MAX_CHUNK_BYTES)
              (dstOffset + min S MAX_CHUNK_BYTES) (S - min S MAX_CHUNK_BYTES)
        else [] := by
  rw [chunkWritesChecked, dif_neg h]

theorem chunkWritesChecked_bounds (H k : ℕ) (S : ℕ) :
    ∀ srcOffset dstOffset, dstOffset = srcOffset + k →
      ∀ w ∈ chunkWritesChecked H srcOffset dstOffset S,
        w.srcOffset + w.len ≤ H ∧ w.dstOffset = w.srcOffset + k := by
  induction S using Nat.strong_induction_on with
  | _ S ih =>
    intro src dst hdst w hw
    by_cases h0 : S = 0
    · subst h0; rw [chunkWritesChecked_zero] at hw; cases hw
    · rw [chunkWritesChecked_pos H src dst S h0] at hw
      have hM : 0 < MAX_CHUNK_BYTES := by simp [MAX_CHUNK_BYTES]
      by_cases hg : src + min S MAX_CHUNK_BYTES ≤ H
      · rw [if_pos hg] at hw
        rcases List.mem_cons.mp hw with hhead | htail
        · subst hhead
          exact ⟨hg, hdst⟩
        · exact ih (S - min S MAX_CHUNK_BYTES) (by omega) _ _ (by omega) w htail
      · rw [if_neg hg] at hw; cases hw

/-! ## Claim theorems for the allocator -/

/-- Claim C3: for every `add_coarse_partition` call whose usage includes the
storage (respectively uniform) flag, with running offset `O` and
device-reported minimum alignment `A` for that usage (WebGPU alignment
limits are powers of two), the offset of the newly created coarse partition
is a multiple of `A`, the inserted padding equals `(A - (O mod A)) mod A`,
and in particular the padding is `0` when `O mod A = 0`. -/
theorem add_coarse_partition_alignment
    (limits : GPULimits) (st : BufferState) (size usage : ℕ)
    (hS : usage &&& GPUBufferUsage_STORAGE ≠ 0 →
      ∃ k, limits.minStorageBufferOffsetAlignment = 2 ^ k)
    (hU : usage &&& GPUBufferUsage_UNIFORM ≠ 0 →
      ∃ k, limits.minUniformBufferOffsetAlignment = 2 ^ k) :
    ∃ p : Partition,
      ((add_coarse_partition limits st size usage).1.coarse_partitions).getLast?
        = some p ∧
      (usage &&& GPUBufferUsage_STORAGE ≠ 0 →
        p.offset % limits.minStorageBufferOffsetAlignment = 0) ∧
      (usage &&& GPUBufferUsage_UNIFORM ≠ 0 →
        p.offset % limits.minUniformBufferOffsetAlignment = 0) ∧
      (∀ O A k, A = 2 ^ k → alignPadding O A = (A - O % A) % A) ∧
      (∀ O A k, A = 2 ^ k → O % A = 0 → alignPadding O A = 0) := by
  by_cases hs : usage &&& GPUBufferUsage_STORAGE ≠ 0 <;>
    by_cases hu : usage &&& GPUBufferUsage_UNIFORM ≠ 0
  · -- both storage and uniform usages apply
    obtain ⟨j, hj⟩ := hS hs
    obtain ⟨k, hk⟩ := hU hu
    refine ⟨⟨st.size + alignPadding st.size limits.minStorageBufferOffsetAlignment
        + alignPadding
            (st.size + alignPadding st.size limits.minStorageBufferOffsetAlignment)
            limits.minUniformBufferOffsetAlignment, size, []⟩, ?_, ?_, ?_,
        fun O A kk h => alignPadding_eq_mod O A kk h,
        fun O A kk h h0 => alignPadding_of_mod_eq_zero O A kk h h0⟩
    · simp only [add_coarse_partition, if_pos hs, if_pos hu]
      exact List.getLast?_concat _
    · intro _
      have hO1 : (st.size + alignPadding st.size
          limits.minStorageBufferOffsetAlignment)
            % limits.minStorageBufferOffsetAlignment = 0 :=
        alignPadding_aligns _ _ j hj
      rcases le_total j k with hjk | hkj
      · have hdvd : limits.minStorageBufferOffsetAlignment
            ∣ limits.minUniformBufferOffsetAlignment := by
          rw [hj, hk]; exact pow_dvd_pow 2 hjk
        have hO2 := alignPadding_aligns
          (st.size + alignPadding st.size limits.minStorageBufferOffsetAlignment)
          limits.minUniformBufferOffsetAlignment k hk
        exact Nat.mod_eq_zero_of_dvd
          (hdvd.trans (Nat.dvd_of_mod_eq_zero hO2))
      · have hdvd : limits.minUniformBufferOffsetAlignment
            ∣ limits.minStorageBufferOffsetAlignment := by
          rw [hj, hk]; exact pow_dvd_pow 2 hkj
        have hO1B : (st.size + alignPadding st.size
            limits.minStorageBufferOffsetAlignment)
              % limits.minUniformBufferOffsetAlignment = 0 :=
          Nat.mod_eq_zero_of_dvd
            (hdvd.trans (Nat.dvd_of_mod_eq_zero hO1))
        rw [alignPadding_of_mod_eq_zero _ _ k hk hO1B, Nat.add_zero]
        exact hO1
    · intro _
      exact alignPadding_aligns _ _ k hk
  · -- storage only
    obtain ⟨j, hj⟩ := hS hs
    refine ⟨⟨st.size + alignPadding st.size limits.minStorageBufferOffsetAlignment,
        size, []⟩, ?_, ?_, fun h => absurd h hu,
        fun O A kk h => alignPadding_eq_mod O A kk h,
        fun O A kk h h0 => alignPadding_of_mod_eq_zero O A kk h h0⟩
    · simp only [add_coarse_partition, if_pos hs, if_neg hu, Nat.add_zero]
      exact List.getLast?_concat _
    · intro _
      exact alignPadding_aligns _ _ j hj
  · -- uniform only
    obtain ⟨k, hk⟩ := hU hu
    refine ⟨⟨st.size + alignPadding st.size limits.minUniformBufferOffsetAlignment,
        size, []⟩, ?_, fun h => absurd h hs, ?_,
        fun O A kk h => alignPadding_eq_mod O A kk h,
        fun O A kk h h0 => alignPadding_of_mod_eq_zero O A kk h h0⟩
    · simp only [add_coarse_partition, if_pos hu, if_neg hs, Nat.add_zero]
      exact List.getLast?_concat _
    · intro _
      exact alignPadding_aligns _ _ k hk
  · -- neither flag
    refine ⟨⟨st.size, size, []⟩, ?_, fun h => absurd h hs, fun h => absurd h hu,
        fun O A kk h => alignPadding_eq_mod O A kk h,
        fun O A kk h h0 => alignPadding_of_mod_eq_zero O A kk h h0⟩
    simp only [add_coarse_partition, if_neg hs, if_neg hu, Nat.add_zero]
    exact List.getLast?_concat _

theorem add_coarse_partition_alignment_witness :
    ∃ p : Partition,
      ((add_coarse_partition ⟨256, 256⟩ ⟨24, [], [], []⟩ 100
        192).1.coarse_partitions).getLast? = some p ∧
      ((192 : ℕ) &&& GPUBufferUsage_STORAGE ≠ 0 → p.offset % 256 = 0) ∧
      ((192 : ℕ) &&& GPUBufferUsage_UNIFORM ≠ 0 → p.offset % 256 = 0) ∧
      (∀ O A k, A = 2 ^ k → alignPadding O A = (A - O % A) % A) ∧
      (∀ O A k, A = 2 ^ k → O % A = 0 → alignPadding O A = 0) :=
  add_coarse_partition_alignment ⟨256, 256⟩ ⟨24, [], [], []⟩ 100 192
    (fun _ => ⟨8, by norm_num⟩) (fun _ => ⟨8, by norm_num⟩)

/-- Claim C4: uploading a host shadow region of `S > 0` bytes by
`upload_coarse_partition` or `upload_fine_partition` issues exactly
`ceil(S / 15MiB)` device writes, each of positive length at most 15 MiB,
whose source and destination offsets/lengths exactly tile `[0, S)` — based
at the partition's global byte offset (the coarse offset, or
`coarse offset + 4 * fine offset`) — with no overlap and no gap. -/
theorem upload_partition_writes_tile :
    (∀ (coarse : Partition) (S : ℕ), 0 < S →
      upload_coarse_partition_writes coarse S = expectedWrites 0 coarse.offset S ∧
      (upload_coarse_partition_writes coarse S).length
        = (S + MAX_CHUNK_BYTES - 1) / MAX_CHUNK_BYTES ∧
      ((upload_coarse_partition_writes coarse S).map DeviceWrite.len).sum = S ∧
      ∀ w ∈ upload_coarse_partition_writes coarse S,
        0 < w.len ∧ w.len ≤ MAX_CHUNK_BYTES) ∧
    (∀ coarse fine : Partition, 0 < fine.size →
      upload_fine_partition_writes coarse fine
        = expectedWrites (fine.offset * 4) (coarse.offset + 4 * fine.offset)
            (fine.size * 4) ∧
      (upload_fine_partition_writes coarse fine).length
        = (fine.size * 4 + MAX_CHUNK_BYTES - 1) / MAX_CHUNK_BYTES ∧
      ((upload_fine_partition_writes coarse fine).map DeviceWrite.len).sum
        = fine.size * 4 ∧
      ∀ w ∈ upload_fine_partition_writes coarse fine,
        0 < w.len ∧ w.len ≤ MAX_CHUNK_BYTES) := by
  constructor
  · intro coarse S _
    refine ⟨chunkWrites_eq_expectedWrites S 0 coarse.offset, ?_,
      chunkWrites_len_sum S 0 coarse.offset,
      chunkWrites_len_bounds S 0 coarse.offset⟩
    show (chunkWrites 0 coarse.offset S).length = _
    rw [chunkWrites_eq_expectedWrites S 0 coarse.offset]
    unfold expectedWrites
    rw [List.length_map, List.length_range]
  · intro coarse fine _
    refine ⟨chunkWrites_eq_expectedWrites _ _ _, ?_,
      chunkWrites_len_sum _ _ _, chunkWrites_len_bounds _ _ _⟩
    show (chunkWrites (fine.offset * 4) (coarse.offset + 4 * fine.offset)
      (fine.size * 4)).length = _
    rw [chunkWrites_eq_expectedWrites]
    unfold expectedWrites
    rw [List.length_map, List.length_range]

theorem upload_partition_writes_tile_witness :
    (upload_coarse_partition_writes ⟨0, 64, []⟩ 64 = expectedWrites 0 0 64 ∧
      (upload_coarse_partition_writes ⟨0, 64, []⟩ 64).length
        = (64 + MAX_CHUNK_BYTES - 1) / MAX_CHUNK_BYTES ∧
      ((upload_coarse_partition_writes ⟨0, 64, []⟩ 64).map DeviceWrite.len).sum
        = 64 ∧
      ∀ w ∈ upload_coarse_partition_writes ⟨0, 64, []⟩ 64,
        0 < w.len ∧ w.len ≤ MAX_CHUNK_BYTES) ∧
    (upload_fine_partition_writes ⟨256, 64, []⟩ ⟨8, 4, []⟩
        = expectedWrites (8 * 4) (256 + 4 * 8) (4 * 4) ∧
      (upload_fine_partition_writes ⟨256, 64, []⟩ ⟨8, 4, []⟩).length
        = (4 * 4 + MAX_CHUNK_BYTES - 1) / MAX_CHUNK_BYTES ∧
      ((upload_fine_partition_writes ⟨256, 64, []⟩ ⟨8, 4, []⟩).map
          DeviceWrite.len).sum = 4 * 4 ∧
      ∀ w ∈ upload_fine_partition_writes ⟨256, 64, []⟩ ⟨8, 4, []⟩,
        0 < w.len ∧ w.len ≤ MAX_CHUNK_BYTES) :=
  ⟨upload_partition_writes_tile.1 ⟨0, 64, []⟩ 64 (by norm_num),
   upload_partition_writes_tile.2 ⟨256, 64, []⟩ ⟨8, 4, []⟩ (by norm_num)⟩

/-- Claim C5: for every sequence of `add_fine_partition` calls on the same
parent coarse partition, the `i`-th fine partition's offset equals the sum
of the sizes of fine partitions `0..i-1` (offset `0` for the first), sizes
and payloads are kept in allocation order, and a further call only appends
(never reorders or removes). -/
theorem add_fine_partition_bump_allocation (reqs : List (ℕ × List ℤ)) :
    (add_fine_partitions reqs).length = reqs.length ∧
    (add_fine_partitions reqs).map Partition.size = reqs.map Prod.fst ∧
    (add_fine_partitions reqs).map Partition.payload = reqs.map Prod.snd ∧
    (∀ i : Fin (add_fine_partitions reqs).length,
      ((add_fine_partitions reqs).get i).offset
        = ((reqs.take i.val).map Prod.fst).sum) ∧
    (∀ r : ℕ × List ℤ,
      add_fine_partitions (reqs ++ [r])
        = add_fine_partitions reqs
            ++ [⟨(reqs.map Prod.fst).sum, r.1, r.2⟩]) := by
  refine ⟨?_, ?_, ?_, ?_, ?_⟩
  · rw [add_fine_partitions_eq_bump]; exact bumpPartitions_length reqs 0
  · rw [add_fine_partitions_eq_bump]; exact bumpPartitions_map_size reqs 0
  · rw [add_fine_partitions_eq_bump]; exact bumpPartitions_map_payload reqs 0
  · intro i
    have hb := add_fine_partitions_eq_bump reqs
    rw [List.get_of_eq hb i, bumpPartitions_get_offset reqs 0]
    exact Nat.zero_add _
  · intro r
    rw [add_fine_partitions_eq_bump, add_fine_partitions_eq_bump,
      bumpPartitions_append r reqs 0, Nat.zero_add]

/-- Claim C7: `blit_to_fine_partition` checks the offset/size pair against
the host shadow (JS `TypedArray.set` raises before copying anything when the
range does not fit), and every device write `upload_fine_partition` issues —
each chunk view is validated against the host shadow before its write — stays
within the owning coarse partition's byte range. -/
theorem fine_partition_writes_checked :
    (∀ (hostLength : ℕ) (coarse fine : Partition),
      coarse.size = 4 * hostLength →
      ∀ w ∈ upload_fine_partition_issued hostLength coarse fine,
        coarse.offset ≤ w.dstOffset ∧
        w.dstOffset + w.len ≤ coarse.offset + coarse.size) ∧
    (∀ (host_memory : List ℚ) (fine : Partition) (src : List ℚ),
      (blit_to_fine_partition host_memory fine src).isSome
        ↔ fine.offset + src.length ≤ host_memory.length) := by
  constructor
  · intro L coarse fine hsz w hw
    unfold upload_fine_partition_issued at hw
    obtain ⟨h1, h2⟩ := chunkWritesChecked_bounds (4 * L) coarse.offset
      (fine.size * 4) (fine.offset * 4) (coarse.offset + 4 * fine.offset)
      (by ring) w hw
    omega
  · intro mem fine src
    by_cases h : fine.offset + src.length ≤ mem.length
    · simp [blit_to_fine_partition, typedArraySet, h]
    · simp [blit_to_fine_partition, typedArraySet, h]

theorem fine_partition_writes_checked_witness :
    ((8 : ℕ) ≤ 8 ∧ (8 : ℕ) + 4 ≤ 8 + 4) ∧
    ((blit_to_fine_partition [0, 0] ⟨1, 1, []⟩ [5]).isSome ↔ (1 : ℕ) + 1 ≤ 2) := by
  constructor
  · have hmem : (⟨0, 8, 4⟩ : DeviceWrite) ∈
        upload_fine_partition_issued 1 ⟨8, 4, []⟩ ⟨0, 1, []⟩ := by
      have h4 : upload_fine_partition_issued 1 ⟨8, 4, []⟩ ⟨0, 1, []⟩
          = [⟨0, 8, 4⟩] := by
        show chunkWritesChecked 4 0 8 4 = _
        have hmin : min 4 MAX_CHUNK_BYTES = 4 := by norm_num [MAX_CHUNK_BYTES]
        rw [chunkWritesChecked_pos 4 0 8 4 (by norm_num), hmin]
        norm_num [chunkWritesChecked_zero]
      rw [h4]
      exact List.mem_singleton.mpr rfl
    exact fine_partition_writes_checked.1 1 ⟨8, 4, []⟩ ⟨0, 1, []⟩ rfl ⟨0, 8, 4⟩ hmem
  · exact fine_partition_writes_checked.2 [0, 0] ⟨1, 1, []⟩ [5]

/-! ## Benchmark score (`calculateBenchmarkScore`, `src/app/.../page.tsx`) -/

/-- JS `Math.round`: round half toward positive infinity. -/
def jsRound (x : ℚ) : ℤ := ⌊x + 1 / 2⌋

/-- JS `[...frameTimes].sort((a, b) => a - b)`: ascending numeric sort. -/
def jsSortNumbers (l : List ℚ) : List ℚ := l.insertionSort (· ≤ ·)

/-- The symmetric trim inside `calculateBenchmarkScore`:
`cutOff = Math.floor(length * 0.1)` and
`sortedTimes.slice(cutOff, sortedTimes.length - cutOff)`.  (JS `slice(a, b)`
keeps positions `a..b-1`; `Math.floor(n * 0.1)` is `n / 10` in exact
arithmetic.) -/
def trimmedFrameTimes (sortedTimes : List ℚ) : List ℚ :=
  let cutOff := sortedTimes.length / 10
  (sortedTimes.take (sortedTimes.length - cutOff)).drop cutOff

/-- `calculateBenchmarkScore` (benchmark page, lines 302-327), with the
floating-point power function `x ↦ Math.pow x 0.75` abstracted as `powf`:
return `0` for an empty sample list, otherwise sort ascending, drop the
lowest and highest `floor(10%)` samples, average the rest (`reduce` then
divide by the length), convert to fps (`1000 / avg`), and return
`round(500 + powf fps * 20)`. -/
def calculateBenchmarkScore (powf : ℚ → ℚ) (frameTimes : List ℚ) : ℤ :=
  if frameTimes.length = 0 then 0
  else
    let sortedTimes := jsSortNumbers frameTimes
    let filteredTimes := trimmedFrameTimes sortedTimes
    let avgFrameTime := filteredTimes.foldl (· + ·) 0 / (filteredTimes.length : ℚ)
    let avgFps := 1000 / avgFrameTime
    jsRound (500 + powf avgFps * 20)

/-- From the spec's words (§6 "Score formula"), for comparison with
`calculateBenchmarkScore`: collect the per-measurement average frame times;
drop the lowest and highest 10% (sorted, symmetric trim); take the mean of
the remainder; convert to frames-per-second (`1000 / avg_ms`);
`score = round(500 + fps ^ 0.75 * 20)` (the power again abstracted as
`powf`). -/
def specScoreFormula (powf : ℚ → ℚ) (frameTimes : List ℚ) : ℤ :=
  let n := frameTimes.length
  let tenPercent := n / 10
  let sorted := frameTimes.insertionSort (· ≤ ·)
  let remainder := (sorted.drop tenPercent).take (n - 2 * tenPercent)
  let avg_ms := remainder.sum / (remainder.length : ℚ)
  let fps := 1000 / avg_ms
  jsRound (500 + powf fps * 20)

/-- Claim C2: for every non-empty list of per-measurement average frame
times, the benchmark score computed by `calculateBenchmarkScore` equals the
spec's formula `round(500 + fps^0.75 * 20)` with `fps = 1000 / avg_ms`,
`avg_ms` the mean of the list after sorting and symmetrically dropping the
lowest and highest 10% of samples; as a function of the input list (and of
the shared power function) the result is deterministic. -/
theorem calculateBenchmarkScore_matches_spec (powf : ℚ → ℚ) (l : List ℚ)
    (h : l ≠ []) :
    calculateBenchmarkScore powf l = specScoreFormula powf l := by
  have hn : l.length ≠ 0 := fun hh => h (List.length_eq_zero.mp hh)
  have hlen : (l.insertionSort (· ≤ ·)).length = l.length :=
    List.length_insertionSort _ _
  have htrim : trimmedFrameTimes (jsSortNumbers l)
      = ((l.insertionSort (· ≤ ·)).drop (l.length / 10)).take
          (l.length - 2 * (l.length / 10)) := by
    unfold trimmedFrameTimes jsSortNumbers
    rw [hlen, List.take_drop]
    have harith : l.length / 10 + (l.length - 2 * (l.length / 10))
        = l.length - l.length / 10 := by omega
    rw [harith]
  unfold calculateBenchmarkScore specScoreFormula
  rw [if_neg hn]
  simp only [htrim, List.sum_eq_foldl]

theorem calculateBenchmarkScore_matches_spec_witness :
    ([10] : List ℚ) ≠ [] ∧
    calculateBenchmarkScore (fun _ => 0) [10]
      = specScoreFormula (fun _ => 0) [10] :=
  ⟨by simp, calculateBenchmarkScore_matches_spec (fun _ => 0) [10] (by simp)⟩

/-- Claim C10: for every non-empty frame-time list of length `n`, the
symmetric trim removes `floor(n/10)` elements from each end, leaving
`n - 2 * floor(n/10)` elements — always a positive count, so the subsequent
mean never divides by zero; for `n < 10` nothing is trimmed at all, and for
the empty list `calculateBenchmarkScore` returns `0` rather than failing. -/
theorem trimmedFrameTimes_safe (powf : ℚ → ℚ) (l : List ℚ) (h : l ≠ []) :
    (trimmedFrameTimes (jsSortNumbers l)).length
      = l.length - 2 * (l.length / 10) ∧
    0 < (trimmedFrameTimes (jsSortNumbers l)).length ∧
    (l.length < 10 → trimmedFrameTimes (jsSortNumbers l) = jsSortNumbers l) ∧
    calculateBenchmarkScore powf [] = 0 := by
  have hn : l.length ≠ 0 := fun hh => h (List.length_eq_zero.mp hh)
  have hlen : (jsSortNumbers l).length = l.length := List.length_insertionSort _ _
  have hlength : (trimmedFrameTimes (jsSortNumbers l)).length
      = l.length - 2 * (l.length / 10) := by
    unfold trimmedFrameTimes
    simp only [List.length_drop, List.length_take, hlen]
    omega
  refine ⟨hlength, ?_, ?_, rfl⟩
  · rw [hlength]
    omega
  · intro h10
    have hc : l.length / 10 = 0 := by omega
    unfold trimmedFrameTimes
    simp only [hlen, hc, Nat.sub_zero, List.drop_zero]
    rw [← hlen, List.take_length]

theorem trimmedFrameTimes_safe_witness :
    ([5, 3] : List ℚ) ≠ [] ∧
    ((trimmedFrameTimes (jsSortNumbers [5, 3])).length
        = ([5, 3] : List ℚ).length - 2 * (([5, 3] : List ℚ).length / 10) ∧
      0 < (trimmedFrameTimes (jsSortNumbers [5, 3])).length ∧
      (([5, 3] : List ℚ).length < 10 →
        trimmedFrameTimes (jsSortNumbers [5, 3]) = jsSortNumbers [5, 3]) ∧
      calculateBenchmarkScore id [] = 0) :=
  ⟨by simp, trimmedFrameTimes_safe id [5, 3] (by simp)⟩

/-! ## BVH builder

The `BVH` and `Node` classes (`src/acceleration_structures/`) are referenced
by `obj_mesh.ts` and `renderer.ts` but their files are not among the sources,
so the builder is modelled from the spec (§3, §4.2). -/

/-- Modelled from the spec: the AABB `Node` primitive (§3, §4.1;
`src/acceleration_structures/node.ts` is absent from the sources): a
component-wise min corner and max corner.  The empty node starts at
`min = +big, max = -big` (the sources present, e.g. `ObjMesh`, use
`±1.0e30`). -/
structure Node3 where
  minCorner : ℚ × ℚ × ℚ
  maxCorner : ℚ × ℚ × ℚ
deriving DecidableEq

def BIG : ℚ := 10 ^ 30

def Node3.emptyNode : Node3 := ⟨(BIG, BIG, BIG), (-BIG, -BIG, -BIG)⟩

def qmin (a b : ℚ) : ℚ := if a ≤ b then a else b

def qmax (a b : ℚ) : ℚ := if a ≤ b then b else a

/-- Modelled from the spec (§4.1): `expand` mutates min/max to the
component-wise extremes of self and other. -/
def Node3.expand (n m : Node3) : Node3 :=
  ⟨(qmin n.minCorner.1 m.minCorner.1, qmin n.minCorner.2.1 m.minCorner.2.1,
    qmin n.minCorner.2.2 m.minCorner.2.2),
   (qmax n.maxCorner.1 m.maxCorner.1, qmax n.maxCorner.2.1 m.maxCorner.2.1,
    qmax n.maxCorner.2.2 m.maxCorner.2.2)⟩

def Node3.centroid (n : Node3) : ℚ × ℚ × ℚ :=
  ((n.minCorner.1 + n.maxCorner.1) / 2,
   (n.minCorner.2.1 + n.maxCorner.2.1) / 2,
   (n.minCorner.2.2 + n.maxCorner.2.2) / 2)

def axisCoord (a : ℕ) (v : ℚ × ℚ × ℚ) : ℚ :=
  if a = 0 then v.1 else if a = 1 then v.2.1 else v.2.2

/-- Modelled from the spec (§4.2 step 1): the group's aggregate bound,
folded via `expand`. -/
def aggregateBound (ps : List (ℕ × Node3)) : Node3 :=
  ps.foldl (fun acc p => acc.expand p.2) Node3.emptyNode

/-- Extent of the group's centroids along one axis, for the split-axis
choice of §4.2 step 2. -/
def centroidExtent (ps : List (ℕ × Node3)) (a : ℕ) : ℚ :=
  let cs := ps.map fun p => axisCoord a p.2.centroid
  cs.foldl qmax (-BIG) - cs.foldl qmin BIG

/-- Modelled from the spec (§4.2 step 2): the split axis is the one with
greatest centroid extent, ties broken in axis order X < Y < Z. -/
def chooseAxis (ps : List (ℕ × Node3)) : ℕ :=
  if centroidExtent ps 1 ≤ centroidExtent ps 0
      ∧ centroidExtent ps 2 ≤ centroidExtent ps 0 then 0
  else if centroidExtent ps 2 ≤ centroidExtent ps 1 then 1
  else 2

/-- Modelled from the spec (§4.2 step 3): sort the group's primitive handles
by centroid coordinate on the chosen axis. -/
def sortByCentroid (a : ℕ) (ps : List (ℕ × Node3)) : List (ℕ × Node3) :=
  ps.insertionSort fun p q => axisCoord a p.2.centroid ≤ axisCoord a q.2.centroid

inductive BVHTree where
  | leaf (primIndex : ℕ) (bound : Node3)
  | node (bound : Node3) (left right : BVHTree)

/-- Modelled from the spec (§4.2): recursively partition the (primitive
index, bound) handles until a group reaches one primitive; otherwise sort by
centroid on the chosen axis and split at the median so both halves are
non-empty. -/
def buildTree : List (ℕ × Node3) → BVHTree
  | [] => .leaf 0 Node3.emptyNode
  | [p] => .leaf p.1 p.2
  | p :: q :: rest =>
    let sorted := sortByCentroid (chooseAxis (p :: q :: rest)) (p :: q :: rest)
    let mid := (p :: q :: rest).length / 2
    .node (aggregateBound (p :: q :: rest))
      (buildTree (sorted.take mid)) (buildTree (sorted.drop mid))
termination_by ps => ps.length
decreasing_by
  · simp only [List.length_take, sortByCentroid, List.length_insertionSort,
      List.length_cons]
    omega
  · simp only [List.length_drop, sortByCentroid, List.length_insertionSort,
      List.length_cons]
    omega

/-- Modelled from the spec (§3): one flattened 32-byte node record — min
corner, max corner, and two encoded control fields: an internal node stores
its left-child node index (second child adjacent), a leaf stores its
primitive count (flagged negative) and its first offset into the emitted
index sequence. -/
structure FlatNode where
  minCorner : ℚ × ℚ × ℚ
  maxCorner : ℚ × ℚ × ℚ
  leftOrCount : ℤ
  childOrFirst : ℤ
deriving DecidableEq

/-- Modelled from the spec (§4.2 flattening): depth-first, left before
right; emits one record per tree node and one primitive index per leaf,
given the node-index and index-sequence bases of the current subtree. -/
def flattenTree : BVHTree → ℕ → ℕ → List FlatNode × List ℕ
  | .leaf i b, _, idxBase =>
    ([⟨b.minCorner, b.maxCorner, -1, (idxBase : ℤ)⟩], [i])
  | .node b l r, nodeBase, idxBase =>
    let left := flattenTree l (nodeBase + 1) idxBase
    let right := flattenTree r (nodeBase + 1 + left.1.length)
      (idxBase + left.2.length)
    (⟨b.minCorner, b.maxCorner, (nodeBase : ℤ) + 1, 0⟩ :: (left.1 ++ right.1),
     left.2 ++ right.2)

/-- Modelled from the spec (§3): the flattened `BVH` value — the node
sequence and the primitive index sequence. -/
structure BVH where
  nodes : List FlatNode
  indices : List ℕ
deriving DecidableEq

/-- Modelled from the spec (§4.2): `new BVH(leaves)` — the empty input
yields the empty BVH (no nodes, no indices); otherwise the tree is built
over the enumerated leaves and flattened from bases `(0, 0)`. -/
def BVH.build (leaves : List Node3) : BVH :=
  if leaves.isEmpty then ⟨[], []⟩
  else
    let f := flattenTree (buildTree leaves.enum) 0 0
    ⟨f.1, f.2⟩

/-- Modelled from the spec (§4.2): `get_flattened_nodes(payload)` re-bases
internal child references by the caller's node offset (`payload[0]`) and
leaf first-index references by the index offset (`payload[1]`). -/
def BVH.get_flattened_nodes (b : BVH) (payload : List ℤ) : List FlatNode :=
  b.nodes.map fun fn =>
    if fn.leftOrCount < 0 then
      { fn with childOrFirst := fn.childOrFirst + payload.getD 1 0 }
    else
      { fn with leftOrCount := fn.leftOrCount + payload.getD 0 0 }

/-- Modelled from the spec (§4.2): `get_flattened_indices(payload)` re-bases
every primitive index by the caller's triangle offset (`payload[0]`). -/
def BVH.get_flattened_indices (b : BVH) (payload : List ℤ) : List ℤ :=
  b.indices.map fun i => (i : ℤ) + payload.getD 0 0

def BVHTree.leafCount : BVHTree → ℕ
  | .leaf _ _ => 1
  | .node _ l r => l.leafCount + r.leafCount

def BVHTree.nodeCount : BVHTree → ℕ
  | .leaf _ _ => 1
  | .node _ l r => 1 + l.nodeCount + r.nodeCount

theorem buildTree_cons_cons (p q : ℕ × Node3) (rest : List (ℕ × Node3)) :
    buildTree (p :: q :: rest)
      = .node (aggregateBound (p :: q :: rest))
          (buildTree ((sortByCentroid (chooseAxis (p :: q :: rest))
            (p :: q :: rest)).take ((p :: q :: rest).length / 2)))
          (buildTree ((sortByCentroid (chooseAxis (p :: q :: rest))
            (p :: q :: rest)).drop ((p :: q :: rest).length / 2))) := by
  simp only [buildTree]

theorem buildTree_counts (n : ℕ) :
    ∀ ps : List (ℕ × Node3), ps.length ≤ n → ps ≠ [] →
      (buildTree ps).leafCount = ps.length ∧
      (buildTree ps).nodeCount = 2 * ps.length - 1 := by
  induction n with
  | zero =>
    intro ps h hne
    cases ps with
    | nil => exact absurd rfl hne
    | cons a l => simp at h
  | succ n ih =>
    intro ps hlen hne
    match ps with
    | [p] => simp [buildTree, BVHTree.leafCount, BVHTree.nodeCount]
    | p :: q :: rest =>
      rw [buildTree_cons_cons]
      set s := sortByCentroid (chooseAxis (p :: q :: rest)) (p :: q :: rest)
        with hs
      set mid := (p :: q :: rest).length / 2 with hmid
      have hslen : s.length = rest.length + 2 := by
        rw [hs]
        simp only [sortByCentroid, List.length_insertionSort, List.length_cons]
      have hmid1 : 1 ≤ mid := by
        rw [hmid]
        simp only [List.length_cons]
        omega
      have hmidlt : mid < rest.length + 2 := by
        rw [hmid]
        simp only [List.length_cons]
        omega
      have hlen2 : rest.length + 2 ≤ n + 1 := by
        simpa using hlen
      have htake : (s.take mid).length = mid := by
        simp only [List.length_take, hslen]
        omega
      have hdrop : (s.drop mid).length = rest.length + 2 - mid := by
        simp only [List.length_drop, hslen]
      have htake_ne : s.take mid ≠ [] := by
        have hp : 0 < (s.take mid).length := by omega
        exact List.length_pos.mp hp
      have hdrop_ne : s.drop mid ≠ [] := by
        have hp : 0 < (s.drop mid).length := by omega
        exact List.length_pos.mp hp
      have ih1 := ih (s.take mid) (by omega) htake_ne
      have ih2 := ih (s.drop mid) (by omega) hdrop_ne
      simp only [BVHTree.leafCount, BVHTree.nodeCount, ih1.1, ih1.2, ih2.1,
        ih2.2, htake, hdrop, List.length_cons]
      omega

theorem flattenTree_nodes_length (t : BVHTree) :
    ∀ nodeBase idxBase, ((flattenTree t nodeBase idxBase).1).length
      = t.nodeCount := by
  induction t with
  | leaf i b => intro nb ib; simp [flattenTree, BVHTree.nodeCount]
  | node b l r ihl ihr =>
    intro nb ib
    simp only [flattenTree, List.length_cons, List.length_append, ihl, ihr,
      BVHTree.nodeCount]
    omega

theorem flattenTree_indices_length (t : BVHTree) :
    ∀ nodeBase idxBase, ((flattenTree t nodeBase idxBase).2).length
      = t.leafCount := by
  induction t with
  | leaf i b => intro nb ib; simp [flattenTree, BVHTree.leafCount]
  | node b l r ihl ihr =>
    intro nb ib
    simp only [flattenTree, List.length_append, ihl, ihr, BVHTree.leafCount]

theorem BVH.build_lengths (leaves : List Node3) (h : leaves ≠ []) :
    (BVH.build leaves).nodes.length = 2 * leaves.length - 1 ∧
    (BVH.build leaves).indices.length = leaves.length := by
  match leaves with
  | a :: rest =>
    have henum_ne : (a :: rest).enum ≠ [] := by
      have : (a :: rest).enum.length = rest.length + 1 := by
        simp [List.enum_length]
      have hp : 0 < (a :: rest).enum.length := by omega
      exact List.length_pos.mp hp
    have hc := buildTree_counts ((a :: rest).enum.length) (a :: rest).enum
      le_rfl henum_ne
    constructor
    · show (flattenTree (buildTree (a :: rest).enum) 0 0).1.length = _
      rw [flattenTree_nodes_length, hc.2, List.enum_length]
    · show (flattenTree (buildTree (a :: rest).enum) 0 0).2.length = _
      rw [flattenTree_indices_length, hc.1, List.enum_length]

/-- `Renderer.build_tlas` (`renderer.ts` lines 307-335), with the
per-object instance-node construction (the `meshes` map lookup and
`BlasDescription(...).get_node()`, whose class file is not among the
sources) abstracted as `instanceNode`: zero scene objects yield
`new BVH([])` immediately; objects without a mesh are skipped; zero valid
nodes also yield `new BVH([])`; otherwise the BVH over the valid nodes. -/
def build_tlas {α : Type} (instanceNode : ℕ → α → Option Node3)
    (objects : List (ℕ × α)) : BVH :=
  if objects.length = 0 then BVH.build []
  else
    let input_nodes := objects.filterMap fun o => instanceNode o.1 o.2
    if input_nodes.length = 0 then BVH.build []
    else BVH.build input_nodes

/-! ## Claim theorems for the BVH builder -/

/-- Claim C1: for every non-empty input leaf sequence of length `N`, the BVH
builder yields exactly `2N - 1` flattened nodes and exactly `N` flattened
indices. -/
theorem bvh_build_counts (leaves : List Node3) (h : leaves ≠ []) :
    (BVH.build leaves).nodes.length = 2 * leaves.length - 1 ∧
    (BVH.build leaves).indices.length = leaves.length :=
  BVH.build_lengths leaves h

theorem bvh_build_counts_witness :
    ([Node3.emptyNode] : List Node3) ≠ [] ∧
    ((BVH.build [Node3.emptyNode]).nodes.length
        = 2 * ([Node3.emptyNode] : List Node3).length - 1 ∧
      (BVH.build [Node3.emptyNode]).indices.length
        = ([Node3.emptyNode] : List Node3).length) :=
  ⟨by simp, bvh_build_counts [Node3.emptyNode] (by simp)⟩

/-- Claim C6: building a BVH from the empty leaf sequence yields zero
flattened nodes and zero flattened indices, flattening it with any payload
yields empty data (no exception — the functions are total), and the TLAS
path for a scene with zero live objects produces exactly this empty BVH
rather than an error. -/
theorem bvh_empty_build_safe :
    (BVH.build []).nodes = [] ∧
    (BVH.build []).indices = [] ∧
    (∀ payload, (BVH.build []).get_flattened_nodes payload = []) ∧
    (∀ payload, (BVH.build []).get_flattened_indices payload = []) ∧
    (∀ (α : Type) (instanceNode : ℕ → α → Option Node3),
      build_tlas instanceNode ([] : List (ℕ × α)) = BVH.build []) :=
  ⟨rfl, rfl, fun _ => rfl, fun _ => rfl, fun _ _ => rfl⟩

/-! ## Mesh initialization (`obj_mesh.ts`) -/

structure Triangle3 where
  corners : List (ℚ × ℚ × ℚ)
  normals : List (ℚ × ℚ × ℚ)
  color : ℚ × ℚ × ℚ
deriving DecidableEq

/-- `Triangle.get_node` (triangle source file): a fresh node expanded by the
triangle's first three corners; a triangle with fewer than three corners
yields the fresh (empty) node unchanged. -/
def Triangle3.get_node (t : Triangle3) : Node3 :=
  if t.corners.length < 3 then Node3.emptyNode
  else (t.corners.take 3).foldl (fun nd c => nd.expand ⟨c, c⟩) Node3.emptyNode

/-- `ObjMesh.createPlaceholderTriangle` (`obj_mesh.ts` lines 56-78): the
minimal placeholder triangle substituted when model loading fails. -/
def createPlaceholderTriangle (scale : ℚ) (color : ℚ × ℚ × ℚ) : Triangle3 :=
  { corners := [(0, 0, 0), (scale, 0, 0), (0, scale, 0)],
    normals := [(0, 0, 1), (0, 0, 1), (0, 0, 1)],
    color := color }

/-- `ObjMesh.build_bvh` (`obj_mesh.ts` lines 255-267): an empty triangle
list yields `new BVH([])`; otherwise the BVH over the per-triangle nodes. -/
def build_bvh (triangles : List Triangle3) : BVH :=
  if triangles.length = 0 then BVH.build []
  else BVH.build (triangles.map Triangle3.get_node)

/-- The outcome of `ObjMesh.readFile` (`obj_mesh.ts` lines 80-126): a failed
fetch or any pre-parsing exception is an error; a parse producing zero
triangles throws ("Model loaded but no valid triangles found"); otherwise
the parsed triangles are returned. -/
def readFileOutcome (fetchOk : Bool) (parsed : List Triangle3) :
    Except Unit (List Triangle3) :=
  if fetchOk then
    if parsed.length = 0 then .error () else .ok parsed
  else .error ()

structure ObjMeshState where
  triangles : List Triangle3
  bvh : BVH

/-- `ObjMesh.initialize` (`obj_mesh.ts` lines 32-53): try `readFile`; on any
error substitute the placeholder triangle (the error is logged, not
re-thrown); then build the bottom-level BVH. -/
def meshInitialize (scale : ℚ) (color : ℚ × ℚ × ℚ)
    (loadResult : Except Unit (List Triangle3)) : ObjMeshState :=
  let triangles := match loadResult with
    | .ok ts => ts
    | .error _ => [createPlaceholderTriangle scale color]
  ⟨triangles, build_bvh triangles⟩

/-- The recovery internal to `ObjMesh.initialize`: whenever `readFile`
throws there (its own fetch fails, or the file parses to zero triangles),
the placeholder triangle is substituted, so the mesh state has one triangle
and a 1-node, 1-index BVH, and no error propagates out of `initialize`. -/
theorem mesh_failure_placeholder (scale : ℚ) (color : ℚ × ℚ × ℚ)
    (fetchOk : Bool) (parsed : List Triangle3)
    (h : fetchOk = false ∨ parsed = []) :
    (meshInitialize scale color (readFileOutcome fetchOk parsed)).triangles
      = [createPlaceholderTriangle scale color] ∧
    (meshInitialize scale color (readFileOutcome fetchOk parsed)).triangles
      ≠ [] ∧
    (meshInitialize scale color (readFileOutcome fetchOk parsed)).bvh.nodes.length
      = 1 ∧
    (meshInitialize scale color
      (readFileOutcome fetchOk parsed)).bvh.indices.length = 1 := by
  have herr : readFileOutcome fetchOk parsed = .error () := by
    rcases h with h | h
    · rw [h]; rfl
    · subst h; cases fetchOk <;> rfl
  rw [herr]
  have hb := BVH.build_lengths
    ([createPlaceholderTriangle scale color].map Triangle3.get_node) (by simp)
  refine ⟨rfl, List.cons_ne_nil _ _, ?_, ?_⟩
  · show (build_bvh [createPlaceholderTriangle scale color]).nodes.length = 1
    unfold build_bvh
    rw [if_neg (by simp), hb.1]
    simp
  · show (build_bvh [createPlaceholderTriangle scale color]).indices.length = 1
    unfold build_bvh
    rw [if_neg (by simp), hb.2]
    simp

theorem mesh_failure_placeholder_witness :
    (false = false ∨ ([] : List Triangle3) = []) ∧
    ((meshInitialize 1 (1, 1, 1) (readFileOutcome false [])).triangles
        = [createPlaceholderTriangle 1 (1, 1, 1)] ∧
      (meshInitialize 1 (1, 1, 1) (readFileOutcome false [])).triangles ≠ [] ∧
      (meshInitialize 1 (1, 1, 1) (readFileOutcome false [])).bvh.nodes.length
        = 1 ∧
      (meshInitialize 1 (1, 1, 1) (readFileOutcome false [])).bvh.indices.length
        = 1) :=
  ⟨Or.inl rfl, mesh_failure_placeholder 1 (1, 1, 1) false [] (Or.inl rfl)⟩

/-- A mesh object as `Renderer.load_models` may leave it in the `meshes`
map: the `ObjMesh` constructor (`obj_mesh.ts` lines 21-30) starts with an
empty triangle list and leaves the `bvh` field undefined (`none` here)
until `build_bvh` assigns it. -/
structure ObjMeshJS where
  triangles : List Triangle3
  bvh : Option BVH

/-- `new ObjMesh()` (`obj_mesh.ts` lines 21-30): empty triangle list, `bvh`
undefined. -/
def newObjMesh : ObjMeshJS := ⟨[], none⟩

/-- One iteration of `Renderer.load_models` (`renderer.ts` lines 272-304):
when the pre-check fetch fails (`checkResponse.ok` false, or the fetch
throws), the map entry is replaced by a bare `new ObjMesh()` and the loop
continues without calling `initialize`; otherwise `mesh.initialize` runs
(with the `readFile` outcome given by `fetchOk`/`parsed`) and installs the
built BVH. -/
def load_model (preCheckOk fetchOk : Bool) (parsed : List Triangle3)
    (scale : ℚ) (color : ℚ × ℚ × ℚ) : ObjMeshJS :=
  if preCheckOk then
    let st := meshInitialize scale color (readFileOutcome fetchOk parsed)
    ⟨st.triangles, some st.bvh⟩
  else newObjMesh

/-- The count accumulation of `Renderer.allocate_coarse_partitions`
(`renderer.ts` lines 337-346): starting from the TLAS counts
`(2 * objects - 1, objects)`, it adds `mesh.bvh.nodes.length` and
`mesh.bvh.indices.length` for every mesh type; reading `.nodes` of an
undefined `bvh` throws a TypeError (modelled as `none`), which propagates
out of `createAssets` and fails renderer asset creation. -/
def allocate_coarse_partition_counts (objectCount : ℕ)
    (meshes : List ObjMeshJS) : Option (ℕ × ℕ) :=
  meshes.foldl
    (fun acc m =>
      match acc, m.bvh with
      | some nc, some b => some (nc.1 + b.nodes.length, nc.2 + b.indices.length)
      | _, _ => none)
    (some (2 * objectCount - 1, objectCount))

/-- Claim C8: the claim fails on the code.  When the pre-check fetch in
`load_models` fails, the mesh left in the map is a bare `new ObjMesh()`:
its triangle list stays empty — no placeholder triangle is substituted —
and its `bvh` stays undefined, so `allocate_coarse_partitions` fails on
`mesh.bvh.nodes` and the load failure is fatal to renderer asset creation.
By contrast, a mesh whose file passes the pre-check but parses to zero
triangles is recovered by the placeholder inside `ObjMesh.initialize`, and
asset creation proceeds. -/
theorem load_models_precheck_failure_fatal :
    (load_model false true [] 1 (1, 1, 1)).triangles = [] ∧
    (load_model false true [] 1 (1, 1, 1)).bvh = none ∧
    allocate_coarse_partition_counts 1 [load_model false true [] 1 (1, 1, 1)]
      = none ∧
    (load_model true true [] 1 (1, 1, 1)).triangles
      = [createPlaceholderTriangle 1 (1, 1, 1)] ∧
    (allocate_coarse_partition_counts 1
      [load_model true true [] 1 (1, 1, 1)]).isSome = true :=
  ⟨rfl, rfl, rfl, rfl, rfl⟩

/-! ## Per-frame rendering (`renderer.ts`) -/

/-- One `renderSingleFrame` invocation's environment: whether each stage of
the frame body (scene update, scene preparation, command encoding and queue
submission) throws, and the elapsed wall-clock time the performance counter
reports. -/
structure FrameRun where
  updateOk : Bool
  prepareOk : Bool
  submitOk : Bool
  elapsed : ℚ

/-- The `try` body of `Renderer.renderSingleFrame` (`renderer.ts` lines
651-696): update the scene, prepare the scene, encode and submit the frame's
commands; any stage throwing aborts the body with that exception, otherwise
the frame time `end - start` is produced. -/
def runFrameBody (f : FrameRun) : Except Unit ℚ :=
  if !f.updateOk then .error ()
  else if !f.prepareOk then .error ()
  else if !f.submitOk then .error ()
  else .ok f.elapsed

/-- `Renderer.renderSingleFrame` (`renderer.ts` lines 649-701): the whole
frame body runs inside `try/catch`; a caught error yields the frame-time
sample `0` instead of propagating. -/
def renderSingleFrame (f : FrameRun) : ℚ :=
  match runFrameBody f with
  | .ok t => t
  | .error _ => 0

/-- Claim C9: if any stage of the frame (scene update, scene preparation, or
command submission) throws, `renderSingleFrame` catches it and returns `0`
as the frame-time sample instead of propagating the exception; when nothing
throws it returns the elapsed frame time.  The function is total, so the
benchmark's sampling loop can always continue. -/
theorem renderSingleFrame_catches (f : FrameRun) :
    (f.updateOk = false ∨ f.prepareOk = false ∨ f.submitOk = false →
      renderSingleFrame f = 0) ∧
    (f.updateOk = true → f.prepareOk = true → f.submitOk = true →
      renderSingleFrame f = f.elapsed) := by
  obtain ⟨u, p, s, e⟩ := f
  cases u <;> cases p <;> cases s <;>
    simp [renderSingleFrame, runFrameBody]

theorem renderSingleFrame_catches_witness :
    renderSingleFrame ⟨false, true, true, 7⟩ = 0 ∧
    renderSingleFrame ⟨true, true, true, 7⟩ = 7 :=
  ⟨(renderSingleFrame_catches ⟨false, true, true, 7⟩).1 (Or.inl rfl),
   (renderSingleFrame_catches ⟨true, true, true, 7⟩).2 rfl rfl rfl⟩

end WebBench
